import Mathlib

/-!
Verification development for the ESL Visual Lesson Architect client.

Shallow embedding of the code in `src/services/geminiService.ts`,
`src/App.tsx` and `src/components/InputForm.tsx`.  Strings are modelled as
`List Char`; the JavaScript string primitives the code relies on
(`includes`, `replace` with a plain-string pattern, global regex replace of
a literal, anchored regex replace, `trim`, `toLowerCase`, `padStart`,
`slice`) are given executable definitions matching JavaScript semantics as
exercised by this code.  Asynchronous model calls and DOM events are
environment inputs: each embedded operation is a function of the values the
environment delivers to it.
-/

/-- JS `String.prototype.includes` with a literal search string. -/
def containsSub (pat : List Char) : List Char → Bool
  | [] => pat.isEmpty
  | c :: rest => pat.isPrefixOf (c :: rest) || containsSub pat rest

def dollarChar : Char := '$'

def ampChar : Char := '&'

def backtickChar : Char := Char.ofNat 96

def singleQuoteChar : Char := Char.ofNat 39

/-- ECMA-262 GetSubstitution for a string search pattern: in the replacement
string, `$$` yields a dollar sign, `$&` the matched substring (the pattern
itself, as the search is a literal), a dollar followed by a backtick the
part of the subject before the match, and a dollar followed by a single
quote the part after it.  A dollar followed by anything else (there are no
capture groups for a string pattern) stays literal. -/
def getSubstitution (matched before after : List Char) : List Char → List Char
  | [] => []
  | [c] => [c]
  | c :: d :: rest =>
    if c = dollarChar then
      if d = dollarChar then dollarChar :: getSubstitution matched before after rest
      else if d = ampChar then matched ++ getSubstitution matched before after rest
      else if d = backtickChar then before ++ getSubstitution matched before after rest
      else if d = singleQuoteChar then after ++ getSubstitution matched before after rest
      else c :: getSubstitution matched before after (d :: rest)
    else c :: getSubstitution matched before after (d :: rest)

/-- The scan of JS `String.prototype.replace` with a plain-string pattern:
`acc` holds the already-passed prefix reversed, so that the substitution can
see the text before and after the first match. -/
def replaceFirstFrom (pat rep : List Char) : List Char → List Char → List Char
  | acc, [] => if pat.isEmpty then getSubstitution pat acc.reverse [] rep else []
  | acc, c :: rest =>
    if pat.isPrefixOf (c :: rest) then
      getSubstitution pat acc.reverse (List.drop pat.length (c :: rest)) rep ++
        List.drop pat.length (c :: rest)
    else c :: replaceFirstFrom pat rep (c :: acc) rest

/-- JS `String.prototype.replace` with a plain-string pattern: replaces only
the first occurrence, expanding dollar patterns in the replacement via
GetSubstitution. -/
def replaceFirst (pat rep s : List Char) : List Char :=
  replaceFirstFrom pat rep [] s

/-- JS global replace of a literal pattern (`.replace(/lit/g, rep)`):
non-overlapping matches found left to right, the replacement not rescanned.
Structural fuel: each step consumes at least one character, so fuel equal to
the length of the subject string suffices. -/
def replaceAllFuel (pat rep : List Char) : Nat → List Char → List Char
  | 0, s => s
  | _ + 1, [] => []
  | fuel + 1, c :: rest =>
    if !pat.isEmpty && pat.isPrefixOf (c :: rest) then
      rep ++ replaceAllFuel pat rep fuel (List.drop pat.length (c :: rest))
    else
      c :: replaceAllFuel pat rep fuel rest

def replaceAll (pat rep s : List Char) : List Char :=
  replaceAllFuel pat rep s.length s

/-- The content placeholder marker of the shell stage. -/
def marker : List Char := "<!-- CONTENT_PLACEHOLDER -->".toList

def closeBody : List Char := "</body>".toList

def fenceHtml : List Char := "```html".toList

def fence : List Char := "```".toList

def fenceJs : List Char := "```javascript".toList

/-- Opening of the fallback container used when the shell has no marker. -/
def fallbackOpen : List Char := "<div class=\"container py-5\"><div class=\"row\">".toList

def fallbackClose : List Char := "</div></div>".toList

/-- geminiService.ts: `x.replace(/```html/g, '').replace(/```/g, '')`. -/
def stripHtmlFences (s : List Char) : List Char :=
  replaceAll fence [] (replaceAll fenceHtml [] s)

/-- geminiService.ts: `x.replace(/```javascript/g, '').replace(/```/g, '')`. -/
def stripScriptFences (s : List Char) : List Char :=
  replaceAll fence [] (replaceAll fenceJs [] s)

/-- The ASSEMBLY step of `generateLessonPlan` (geminiService.ts), as a
function of the three markup-bearing stage outputs it splices: the shell,
the content cards and the script block.  The earlier pipeline stages only
produce these strings through the external model, so they are parameters of
the embedding. -/
def generateLessonPlan (shell contentHtml script : List Char) : List Char :=
  let finalHtml := stripHtmlFences shell
  let cleanContent := stripHtmlFences contentHtml
  let cleanScript := stripScriptFences script
  let spliced :=
    if containsSub marker finalHtml then
      replaceFirst marker cleanContent finalHtml
    else
      replaceFirst closeBody (fallbackOpen ++ cleanContent ++ fallbackClose ++ closeBody) finalHtml
  replaceFirst closeBody (cleanScript ++ closeBody) spliced

/-- A JavaScript error value as observed by `withRetry`: an optional
`message` string and an optional numeric `status` field. -/
structure JsError where
  message : Option (List Char)
  status : Option Nat
  deriving DecidableEq

def msg429 : List Char := "429".toList

def msgResourceExhausted : List Char := "resource_exhausted".toList

/-- Error classification inside `withRetry` (geminiService.ts):
`errorMessage = error?.message?.toLowerCase() || ""`, then
`errorMessage.includes('429') || errorMessage.includes('resource_exhausted')
|| error?.status === 429`. -/
def isRateLimit (e : JsError) : Bool :=
  let errorMessage := (e.message.map (List.map Char.toLower)).getD []
  containsSub msg429 errorMessage || containsSub msgResourceExhausted errorMessage
    || e.status == some 429

/-- Observable trace of one `withRetry` run: the final outcome (`error none`
models throwing the undefined initial `lastError`), the number of times the
wrapped operation was invoked, and the backoff waits in order. -/
structure RetryTrace (α : Type) where
  result : Except (Option JsError) α
  calls : Nat
  waits : List Nat

/-- The retry loop of `withRetry`, with the wrapped operation modelled as a
function from the 0-based attempt index to that attempt's outcome. -/
def withRetryAux {α : Type} (op : Nat → Except JsError α) :
    Option JsError → Nat → Nat → RetryTrace α
  | lastError, _, 0 => ⟨Except.error lastError, 0, []⟩
  | _, i, fuel + 1 =>
    match op i with
    | Except.ok v => ⟨Except.ok v, 1, []⟩
    | Except.error e =>
      if isRateLimit e then
        let r := withRetryAux op (some e) (i + 1) fuel
        ⟨r.result, r.calls + 1, 2 ^ i * 5000 :: r.waits⟩
      else ⟨Except.error (some e), 1, []⟩

/-- `withRetry(fn, maxRetries)` (geminiService.ts). -/
def withRetry {α : Type} (op : Nat → Except JsError α) (maxRetries : Nat) : RetryTrace α :=
  withRetryAux op none 0 maxRetries

/-- Case-insensitive substring test (both sides lowercased). -/
def ciContains (pat s : List Char) : Bool :=
  containsSub (pat.map Char.toLower) (s.map Char.toLower)

/-- Rate-limit classification as the specification words it: HTTP status
429, or a message containing "resource exhausted" case-insensitively.
Stated from the spec only, to be compared against `isRateLimit`. -/
def specRateLimit (e : JsError) : Bool :=
  (e.status == some 429) || ciContains "resource exhausted".toList (e.message.getD [])

/-- JS anchored replace `s.replace(/^pat/, '')` for a literal `pat`. -/
def stripLeading (pat s : List Char) : List Char :=
  if pat.isPrefixOf s then List.drop pat.length s else s

/-- JS anchored replace `s.replace(/pat$/, '')` for a literal `pat`. -/
def stripTrailing (pat s : List Char) : List Char :=
  if pat.isSuffixOf s then List.take (s.length - pat.length) s else s

/-- Result handling of `refineLessonPlan` (geminiService.ts):
`response.text?.replace(/^```html/, '').replace(/```$/, '') || currentHtml`,
as a function of the model response text (`none` models undefined). -/
def refineResult (text : Option (List Char)) (currentHtml : List Char) : List Char :=
  match text with
  | none => currentHtml
  | some t =>
    let cleaned := stripTrailing fence (stripLeading fenceHtml t)
    if cleaned.isEmpty then currentHtml else cleaned

inductive ChatRole
  | user
  | ai
  deriving DecidableEq

structure ChatMessage where
  role : ChatRole
  content : List Char
  deriving DecidableEq

/-- The part of the App component state that `handleRefine` touches. -/
structure AppState where
  generatedHtml : List Char
  chatMessages : List ChatMessage
  deriving DecidableEq

def msgRESOURCE : List Char := "RESOURCE_EXHAUSTED".toList

/-- App.tsx quota check in `handleRefine` (case-sensitive `includes` on the
raw message). -/
def isQuotaError : Option JsError → Bool
  | none => false
  | some e =>
    containsSub msg429 (e.message.getD []) || containsSub msgRESOURCE (e.message.getD [])

def refineSuccessMsg : List Char := "Code updated! The preview has been refreshed.".toList

def quotaErrorMsg : List Char :=
  "Sorry, the AI is at its limit. Please wait a moment and then try sending your request again.".toList

def genericErrorMsg : List Char := "Sorry, I encountered an error while updating the code.".toList

/-- App.tsx `handleRefine` as a state transition, parametrised by the
outcome of the awaited `refineLessonPlan` call (which is `withRetry` around
one model call). -/
def handleRefine (s : AppState) (request : List Char)
    (outcome : Except (Option JsError) (List Char)) : AppState :=
  let s1 : AppState := { s with chatMessages := s.chatMessages ++ [⟨ChatRole.user, request⟩] }
  match outcome with
  | Except.ok newHtml =>
    { generatedHtml := newHtml,
      chatMessages := s1.chatMessages ++ [⟨ChatRole.ai, refineSuccessMsg⟩] }
  | Except.error e =>
    let m := if isQuotaError e then quotaErrorMsg else genericErrorMsg
    { s1 with chatMessages := s1.chatMessages ++ [⟨ChatRole.ai, m⟩] }

def unsafeFileChars : List Char := "<>:\"/\\|?*".toList

/-- One step of `filenameBase.replace(/[<>:"/\\|?*]/g, '-')`. -/
def sanitizeChar (c : Char) : Char := if c ∈ unsafeFileChars then '-' else c

/-- JS `String.prototype.trim` (whitespace at both ends removed). -/
def jsTrim (s : List Char) : List Char :=
  ((s.dropWhile Char.isWhitespace).reverse.dropWhile Char.isWhitespace).reverse

def ciEqChar (a b : Char) : Bool := a.toLower == b.toLower

/-- Case-insensitive literal prefix match. -/
def ciIsPrefixOf : List Char → List Char → Bool
  | [], _ => true
  | _ :: _, [] => false
  | a :: ps, b :: qs => ciEqChar a b && ciIsPrefixOf ps qs

def titleOpen : List Char := "<title>".toList

def titleClose : List Char := "</title>".toList

/-- Lazy capture `(.*?)` followed by `</title>` with the `i` flag: extend the
capture one character at a time, stopping at the earliest closing tag; `.`
does not match line terminators. -/
def tryCaptureTitle (acc : List Char) : List Char → Option (List Char)
  | [] => none
  | c :: rest =>
    if ciIsPrefixOf titleClose (c :: rest) then some acc.reverse
    else if c == '\n' || c == '\r' then none
    else tryCaptureTitle (c :: acc) rest

/-- `generatedHtml.match(/<title>(.*?)<\/title>/i)`: try each start position
left to right, matching the open tag case-insensitively and then the lazy
capture. -/
def extractTitle : List Char → Option (List Char)
  | [] => none
  | c :: rest =>
    if ciIsPrefixOf titleOpen (c :: rest) then
      match tryCaptureTitle [] (List.drop titleOpen.length (c :: rest)) with
      | some t => some t
      | none => extractTitle rest
    else extractTitle rest

/-- JS `String(n)` for a natural number. -/
def natToChars (n : Nat) : List Char := Nat.toDigits 10 n

/-- JS `padStart(2, '0')`. -/
def pad2 (s : List Char) : List Char :=
  if s.length < 2 then List.replicate (2 - s.length) '0' ++ s else s

/-- JS `slice(-2)`. -/
def lastTwo (s : List Char) : List Char := List.drop (s.length - 2) s

/-- App.tsx `handleDownload` date string `MM.DD.YY`, from the 0-based month,
the day of month and the full year of the current date. -/
def dateStr (month0 day fullYear : Nat) : List Char :=
  pad2 (natToChars (month0 + 1)) ++ ".".toList ++ pad2 (natToChars day) ++ ".".toList
    ++ lastTwo (natToChars fullYear)

def defaultTitle : List Char := "Interactive_Lesson".toList

/-- App.tsx `handleDownload`: `none` when there is no artifact (the handler
returns without downloading), otherwise the computed download file name. -/
def downloadFileName (generatedHtml dateS : List Char) : Option (List Char) :=
  if generatedHtml.isEmpty then none
  else
    let base :=
      match extractTitle generatedHtml with
      | some t => t
      | none => defaultTitle
    let base2 := jsTrim (base.map sanitizeChar)
    some (base2 ++ "-sway-".toList ++ dateS ++ ".html".toList)

/-- InputForm.tsx `extractKeyframes`: the three sampled timestamps
`[duration * 0.1, duration * 0.5, duration * 0.9]`, durations as exact
rationals. -/
def keyframeTimestamps (duration : ℚ) : List ℚ :=
  [duration * (1 / 10), duration * (1 / 2), duration * (9 / 10)]

/-- The seek-and-render loop: one rendered frame per timestamp, in order; a
failed seek/render rejects the whole extraction. -/
def collectFrames {β : Type} (render : ℚ → Option β) : List ℚ → Except Unit (List β)
  | [] => Except.ok []
  | t :: ts =>
    match render t with
    | none => Except.error ()
    | some f =>
      match collectFrames render ts with
      | Except.error e => Except.error e
      | Except.ok fs => Except.ok (f :: fs)

/-- InputForm.tsx `extractKeyframes`, parametrised by the environment's
seek-and-render outcome at each timestamp. -/
def extractKeyframes {β : Type} (duration : ℚ) (render : ℚ → Option β) :
    Except Unit (List β) :=
  collectFrames render (keyframeTimestamps duration)

inductive FileStatus
  | processing
  | completed
  | error
  deriving DecidableEq

/-- InputForm.tsx `FileItem` (the Attachment record). -/
structure FileItem where
  name : List Char
  ftype : List Char
  data : Option (List Char)
  keyframes : Option (List (List Char))
  text : Option (List Char)
  status : FileStatus
  progress : Nat
  deriving DecidableEq

/-- One `updateFile({...})` call: a partial merge into the item. -/
inductive FileUpdate
  | progress (p : Nat)
  | videoDone (frames : List (List Char))
  | textDone (t : List Char)
  | dataDone (d : List Char)
  | failed
  deriving DecidableEq

def applyUpdate (f : FileItem) : FileUpdate → FileItem
  | FileUpdate.progress p => { f with progress := p }
  | FileUpdate.videoDone frames =>
    { f with keyframes := some frames, status := FileStatus.completed, progress := 100 }
  | FileUpdate.textDone t =>
    { f with text := some t, status := FileStatus.completed, progress := 100 }
  | FileUpdate.dataDone d =>
    { f with data := some d, status := FileStatus.completed, progress := 100 }
  | FileUpdate.failed => { f with status := FileStatus.error }

/-- Environment outcome of processing one file in `processFile`: which
dispatch branch ran and how its reader/decoder ended.  (`docxNoConverter`
and `otherNoResult` are the branches whose callback never fires, leaving the
item in `processing` forever; every failing branch clears the progress
interval before its terminal update.) -/
inductive ProcessOutcome
  | videoOk (frames : List (List Char))
  | videoFail
  | docxOk (t : List Char)
  | docxFail
  | docxNoConverter
  | txtOk (t : List Char)
  | otherOk (d : List Char)
  | otherNoResult

def outcomeUpdates : ProcessOutcome → List FileUpdate
  | ProcessOutcome.videoOk frames => [FileUpdate.videoDone frames]
  | ProcessOutcome.videoFail => [FileUpdate.failed]
  | ProcessOutcome.docxOk t => [FileUpdate.textDone t]
  | ProcessOutcome.docxFail => [FileUpdate.failed]
  | ProcessOutcome.docxNoConverter => []
  | ProcessOutcome.txtOk t => [FileUpdate.textDone t]
  | ProcessOutcome.otherOk d => [FileUpdate.dataDone d]
  | ProcessOutcome.otherNoResult => []

/-- The synthetic progress ticks: `p += 15` every 100 ms, the update applied
only while `p <= 90`, so at most six ticks with values 15, 30, ..., 90. -/
def tickValues (n : Nat) : List Nat := (List.range (min n 6)).map (fun k => 15 * (k + 1))

/-- The update sequence one `processFile` run applies to its item: `n` timer
ticks observed before the dispatch branch finished, then that branch's
terminal update. -/
def processUpdates (n : Nat) (o : ProcessOutcome) : List FileUpdate :=
  (tickValues n).map FileUpdate.progress ++ outcomeUpdates o

def initialItem (name ftype : List Char) : FileItem :=
  ⟨name, ftype, none, none, none, FileStatus.processing, 0⟩

/-- InputForm.tsx `processFile` for one file, as the fold of its update
sequence over the freshly created item. -/
def processFile (name ftype : List Char) (n : Nat) (o : ProcessOutcome) : FileItem :=
  (processUpdates n o).foldl applyUpdate (initialItem name ftype)

/-- How many of the three payload fields {text, data, keyframes} are set. -/
def populatedCount (f : FileItem) : Nat :=
  (if f.text.isSome then 1 else 0) + (if f.data.isSome then 1 else 0)
    + (if f.keyframes.isSome then 1 else 0)

/-! ### String lemmas -/

theorem containsSub_nil_pat (l : List Char) : containsSub [] l = true := by
  cases l <;> simp [containsSub, List.isPrefixOf]

theorem isPrefixOf_append_self (l r : List Char) : l.isPrefixOf (l ++ r) = true := by
  rw [List.isPrefixOf_iff_prefix]
  exact List.prefix_append l r

/-- A string of the shape `x ++ pat ++ y` contains `pat`. -/
theorem containsSub_append_self (pat : List Char) :
    ∀ (x y : List Char), containsSub pat (x ++ pat ++ y) = true := by
  intro x
  induction x with
  | nil =>
    intro y
    cases pat with
    | nil => simpa using containsSub_nil_pat y
    | cons a t =>
      simp only [List.nil_append, List.cons_append, containsSub]
      have hpre : (a :: t).isPrefixOf (a :: (t ++ y)) = true := by
        rw [← List.cons_append]
        exact isPrefixOf_append_self (a :: t) y
      simp [hpre]
  | cons c x ih =>
    intro y
    simp only [List.cons_append, containsSub, List.append_eq]
    rw [ih y]
    simp

/-- A replacement string without a dollar character passes through
GetSubstitution verbatim. -/
theorem getSubstitution_no_dollar (matched before after : List Char) :
    ∀ (rep : List Char), dollarChar ∉ rep →
      getSubstitution matched before after rep = rep := by
  intro rep
  induction rep with
  | nil => intro _; rfl
  | cons c rest ih =>
    intro h
    have hc : ¬ c = dollarChar := by
      intro hcd
      exact h (by rw [hcd]; exact List.mem_cons_self _ _)
    cases rest with
    | nil => rfl
    | cons d rest2 =>
      simp only [getSubstitution]
      rw [if_neg hc]
      congr 1
      exact ih (fun hmem => h (List.mem_cons_of_mem c hmem))

theorem replaceFirstFrom_splice (pat rep : List Char) (hp : pat ≠ [])
    (hd : dollarChar ∉ rep) :
    ∀ (p s acc : List Char),
      (∀ i, i < p.length → pat.isPrefixOf (List.drop i (p ++ pat ++ s)) = false) →
      replaceFirstFrom pat rep acc (p ++ pat ++ s) = p ++ rep ++ s := by
  intro p
  induction p with
  | nil =>
    intro s acc _
    cases pat with
    | nil => exact absurd rfl hp
    | cons a t =>
      simp only [List.nil_append, List.cons_append, replaceFirstFrom, List.append_eq]
      have hpre : (a :: t).isPrefixOf (a :: (t ++ s)) = true := by
        rw [← List.cons_append]
        exact isPrefixOf_append_self (a :: t) s
      have hdrop : List.drop (a :: t).length (a :: (t ++ s)) = s := by
        rw [← List.cons_append]
        exact List.drop_left (a :: t) s
      rw [hpre, if_pos rfl, hdrop, getSubstitution_no_dollar _ _ _ rep hd]
  | cons b p ih =>
    intro s acc h
    have h0 : pat.isPrefixOf (b :: (p ++ pat ++ s)) = false := by
      have := h 0 (by simp)
      simpa using this
    simp only [List.cons_append, replaceFirstFrom, List.append_eq, h0,
      Bool.false_eq_true, if_false]
    congr 1
    refine ih s (b :: acc) (fun i hi => ?_)
    have := h (i + 1) (by simpa using Nat.succ_lt_succ hi)
    simpa [List.cons_append, List.drop_succ_cons] using this

/-- `replaceFirst` rewrites the first occurrence of the pattern: if the
subject splits as `p ++ pat ++ s`, no occurrence of `pat` starts inside `p`,
and the replacement contains no dollar character (so GetSubstitution leaves
it verbatim), the result is `p ++ rep ++ s`. -/
theorem replaceFirst_splice (pat rep : List Char) (hp : pat ≠ [])
    (hd : dollarChar ∉ rep) (p s : List Char)
    (hfirst : ∀ i, i < p.length →
      pat.isPrefixOf (List.drop i (p ++ pat ++ s)) = false) :
    replaceFirst pat rep (p ++ pat ++ s) = p ++ rep ++ s :=
  replaceFirstFrom_splice pat rep hp hd p s [] hfirst

/-! ### C1 -/

/-- C1, counterexample: a shell stage output containing the literal marker
twice still contains the marker after assembly — `replace` with a string
pattern substitutes only the first occurrence, so the claim "the returned
artifact contains no occurrence of the marker" is false at this input. -/
theorem generateLessonPlan_double_marker_survives :
    containsSub marker
      (generateLessonPlan
        "<!-- CONTENT_PLACEHOLDER --><!-- CONTENT_PLACEHOLDER --></body>".toList
        "<div>X</div>".toList "s()".toList) = true := by decide

/-- C1, amended: when the fence-stripped shell contains exactly one
occurrence of the marker (it splits as `p ++ marker ++ s` with no occurrence
starting inside `p`), the cleaned content contains no dollar character (so
GetSubstitution splices it verbatim), and the marker does not occur in the
document obtained by substituting the cleaned content for it and splicing
the script before the closing body boundary, the assembled artifact is
exactly that document: the marker is gone and the cleaned content sits in
its place. -/
theorem generateLessonPlan_single_marker_replaced
    (shell contentHtml script p s : List Char)
    (hsh : stripHtmlFences shell = p ++ marker ++ s)
    (hfirst : ∀ i, i < p.length →
      marker.isPrefixOf (List.drop i (p ++ marker ++ s)) = false)
    (hdollar : dollarChar ∉ stripHtmlFences contentHtml)
    (hnomark : containsSub marker
      (replaceFirst closeBody (stripScriptFences script ++ closeBody)
        (p ++ stripHtmlFences contentHtml ++ s)) = false) :
    generateLessonPlan shell contentHtml script =
      replaceFirst closeBody (stripScriptFences script ++ closeBody)
        (p ++ stripHtmlFences contentHtml ++ s) ∧
    containsSub marker (generateLessonPlan shell contentHtml script) = false := by
  have hmem : containsSub marker (stripHtmlFences shell) = true := by
    rw [hsh]
    exact containsSub_append_self marker p s
  have hrepl : replaceFirst marker (stripHtmlFences contentHtml) (stripHtmlFences shell)
      = p ++ stripHtmlFences contentHtml ++ s := by
    rw [hsh]
    exact replaceFirst_splice marker _ (by decide) hdollar p s hfirst
  have key : generateLessonPlan shell contentHtml script =
      replaceFirst closeBody (stripScriptFences script ++ closeBody)
        (p ++ stripHtmlFences contentHtml ++ s) := by
    simp only [generateLessonPlan, hmem, if_true]
    rw [hrepl]
  exact ⟨key, by rw [key]; exact hnomark⟩

theorem generateLessonPlan_single_marker_replaced_witness :
    generateLessonPlan "<html><body><!-- CONTENT_PLACEHOLDER --></body></html>".toList
        "<div>X</div>".toList "s()".toList =
      replaceFirst closeBody (stripScriptFences "s()".toList ++ closeBody)
        ("<html><body>".toList ++ stripHtmlFences "<div>X</div>".toList ++
          "</body></html>".toList) ∧
    containsSub marker
      (generateLessonPlan "<html><body><!-- CONTENT_PLACEHOLDER --></body></html>".toList
        "<div>X</div>".toList "s()".toList) = false :=
  generateLessonPlan_single_marker_replaced
    "<html><body><!-- CONTENT_PLACEHOLDER --></body></html>".toList
    "<div>X</div>".toList "s()".toList
    "<html><body>".toList "</body></html>".toList
    (by decide) (by decide) (by decide) (by decide)

/-! ### C4 -/

theorem withRetryAux_ok {α : Type} (op : Nat → Except JsError α)
    (last : Option JsError) (i fuel : Nat) (v : α) (hop : op i = Except.ok v) :
    withRetryAux op last i (fuel + 1) = ⟨Except.ok v, 1, []⟩ := by
  rw [withRetryAux, hop]

theorem withRetryAux_rate {α : Type} (op : Nat → Except JsError α)
    (last : Option JsError) (i fuel : Nat) (e : JsError)
    (hop : op i = Except.error e) (hrl : isRateLimit e = true) :
    withRetryAux op last i (fuel + 1) =
      ⟨(withRetryAux op (some e) (i + 1) fuel).result,
        (withRetryAux op (some e) (i + 1) fuel).calls + 1,
        2 ^ i * 5000 :: (withRetryAux op (some e) (i + 1) fuel).waits⟩ := by
  rw [withRetryAux, hop]
  simp [hrl]

theorem withRetryAux_other {α : Type} (op : Nat → Except JsError α)
    (last : Option JsError) (i fuel : Nat) (e : JsError)
    (hop : op i = Except.error e) (hrl : isRateLimit e = false) :
    withRetryAux op last i (fuel + 1) = ⟨Except.error (some e), 1, []⟩ := by
  rw [withRetryAux, hop]
  simp [hrl]

/-! ### C2 -/

/-- C2: with `maxRetries = 5`, an operation that fails rate-limited on
attempts 1-4 and succeeds on the 5th returns the success value, is invoked
exactly 5 times, and the backoff waits are `2^i * 5000` for attempts
`i = 0..3`, totalling 75000 ms; if all 5 attempts fail rate-limited, the
last observed error is thrown. -/
theorem withRetry_rate_limit_backoff :
    (∀ (α : Type) (op : Nat → Except JsError α) (v : α) (errs : Nat → JsError),
      (∀ i, i < 4 → op i = Except.error (errs i) ∧ isRateLimit (errs i) = true) →
      op 4 = Except.ok v →
      withRetry op 5 = ⟨Except.ok v, 5, [5000, 10000, 20000, 40000]⟩ ∧
        ([5000, 10000, 20000, 40000] : List Nat).sum = 75000) ∧
    (∀ (α : Type) (op : Nat → Except JsError α) (errs : Nat → JsError),
      (∀ i, i < 5 → op i = Except.error (errs i) ∧ isRateLimit (errs i) = true) →
      (withRetry op 5).result = Except.error (some (errs 4)) ∧
        (withRetry op 5).calls = 5) := by
  constructor
  · intro α op v errs h h4
    have h0 := h 0 (by norm_num)
    have h1 := h 1 (by norm_num)
    have h2 := h 2 (by norm_num)
    have h3 := h 3 (by norm_num)
    have e4 : withRetryAux op (some (errs 3)) 4 1 = ⟨Except.ok v, 1, []⟩ := by
      rw [show (1 : Nat) = 0 + 1 from rfl]
      exact withRetryAux_ok op _ 4 0 v h4
    have e3 : withRetryAux op (some (errs 2)) 3 2 = ⟨Except.ok v, 2, [40000]⟩ := by
      rw [show (2 : Nat) = 1 + 1 from rfl,
        withRetryAux_rate op _ 3 1 (errs 3) h3.1 h3.2, e4]
      rfl
    have e2 : withRetryAux op (some (errs 1)) 2 3 = ⟨Except.ok v, 3, [20000, 40000]⟩ := by
      rw [show (3 : Nat) = 2 + 1 from rfl,
        withRetryAux_rate op _ 2 2 (errs 2) h2.1 h2.2, e3]
      rfl
    have e1 : withRetryAux op (some (errs 0)) 1 4 =
        ⟨Except.ok v, 4, [10000, 20000, 40000]⟩ := by
      rw [show (4 : Nat) = 3 + 1 from rfl,
        withRetryAux_rate op _ 1 3 (errs 1) h1.1 h1.2, e2]
      rfl
    have e0 : withRetryAux op none 0 5 =
        ⟨Except.ok v, 5, [5000, 10000, 20000, 40000]⟩ := by
      rw [show (5 : Nat) = 4 + 1 from rfl,
        withRetryAux_rate op _ 0 4 (errs 0) h0.1 h0.2, e1]
      rfl
    exact ⟨e0, by norm_num⟩
  · intro α op errs h
    have h0 := h 0 (by norm_num)
    have h1 := h 1 (by norm_num)
    have h2 := h 2 (by norm_num)
    have h3 := h 3 (by norm_num)
    have h4 := h 4 (by norm_num)
    have e4 : withRetryAux op (some (errs 3)) 4 1 =
        ⟨Except.error (some (errs 4)), 1, [80000]⟩ := by
      rw [show (1 : Nat) = 0 + 1 from rfl,
        withRetryAux_rate op _ 4 0 (errs 4) h4.1 h4.2]
      rfl
    have e3 : withRetryAux op (some (errs 2)) 3 2 =
        ⟨Except.error (some (errs 4)), 2, [40000, 80000]⟩ := by
      rw [show (2 : Nat) = 1 + 1 from rfl,
        withRetryAux_rate op _ 3 1 (errs 3) h3.1 h3.2, e4]
      rfl
    have e2 : withRetryAux op (some (errs 1)) 2 3 =
        ⟨Except.error (some (errs 4)), 3, [20000, 40000, 80000]⟩ := by
      rw [show (3 : Nat) = 2 + 1 from rfl,
        withRetryAux_rate op _ 2 2 (errs 2) h2.1 h2.2, e3]
      rfl
    have e1 : withRetryAux op (some (errs 0)) 1 4 =
        ⟨Except.error (some (errs 4)), 4, [10000, 20000, 40000, 80000]⟩ := by
      rw [show (4 : Nat) = 3 + 1 from rfl,
        withRetryAux_rate op _ 1 3 (errs 1) h1.1 h1.2, e2]
      rfl
    have e0 : withRetryAux op none 0 5 =
        ⟨Except.error (some (errs 4)), 5, [5000, 10000, 20000, 40000, 80000]⟩ := by
      rw [show (5 : Nat) = 4 + 1 from rfl,
        withRetryAux_rate op _ 0 4 (errs 0) h0.1 h0.2, e1]
      rfl
    rw [withRetry, e0]
    exact ⟨rfl, rfl⟩

def rlError : JsError := ⟨some "HTTP 429 rate limited".toList, some 429⟩

def opSucceedsFifth : Nat → Except JsError Nat :=
  fun i => if i < 4 then Except.error rlError else Except.ok 7

theorem withRetry_rate_limit_backoff_witness :
    withRetry opSucceedsFifth 5 = ⟨Except.ok 7, 5, [5000, 10000, 20000, 40000]⟩ ∧
      ([5000, 10000, 20000, 40000] : List Nat).sum = 75000 :=
  withRetry_rate_limit_backoff.1 Nat opSucceedsFifth 7 (fun _ => rlError)
    (fun i hi => ⟨by interval_cases i <;> rfl,
      show isRateLimit rlError = true by decide⟩) rfl

/-! ### C5 -/

/-- C5: an operation whose first invocation fails with an error not
classified rate-limited makes `withRetry` rethrow exactly that error at
once: one invocation, no backoff wait. -/
theorem withRetry_non_rate_limit_propagates (α : Type) (op : Nat → Except JsError α)
    (e : JsError) (hop : op 0 = Except.error e) (hrl : isRateLimit e = false) :
    withRetry op 5 = ⟨Except.error (some e), 1, []⟩ := by
  rw [withRetry, show (5 : Nat) = 4 + 1 from rfl]
  exact withRetryAux_other op none 0 4 e hop hrl

def badRequestError : JsError := ⟨some "Bad request".toList, some 400⟩

def opBadRequest : Nat → Except JsError (List Char) :=
  fun _ => Except.error badRequestError

theorem withRetry_non_rate_limit_propagates_witness :
    withRetry opBadRequest 5 = ⟨Except.error (some badRequestError), 1, []⟩ :=
  withRetry_non_rate_limit_propagates (List Char) opBadRequest
    badRequestError rfl (by decide)

/-! ### C3 -/

/-- C3, counterexample: an error whose message is exactly
"resource exhausted" (with a space) and which carries no status is NOT
classified rate-limited by the code, although the claimed classification
("status 429 or message containing "resource exhausted" case-insensitively")
says it is — the code matches the underscored "resource_exhausted" instead,
and additionally matches "429" inside the message. -/
theorem isRateLimit_space_message_diverges :
    isRateLimit ⟨some "resource exhausted".toList, none⟩ = false ∧
    specRateLimit ⟨some "resource exhausted".toList, none⟩ = true := by decide

/-- C3, amended: `withRetry` classifies an error as rate-limited if and only
if its message contains "429" or "resource_exhausted" case-insensitively, or
its status field equals 429. -/
theorem isRateLimit_characterization (e : JsError) :
    isRateLimit e =
      (ciContains msg429 (e.message.getD []) ||
        ciContains msgResourceExhausted (e.message.getD []) ||
        (e.status == some 429)) := by
  have hm1 : msg429.map Char.toLower = msg429 := by decide
  have hm2 : msgResourceExhausted.map Char.toLower = msgResourceExhausted := by decide
  cases e with
  | mk message status =>
    cases message with
    | none => simp [isRateLimit, ciContains, hm1, hm2]
    | some m => simp [isRateLimit, ciContains, hm1, hm2]

/-! ### C6 -/

/-- C6: when the awaited `refineLessonPlan` call fails (any thrown error,
including exhausted retries), `handleRefine` only appends chat messages —
the stored `generatedHtml` keeps its prior value, and the embedding of the
refinement is a pure function of its inputs, so the previous artifact value
itself is never modified. -/
theorem handleRefine_failure_preserves_html (s : AppState) (request : List Char)
    (err : Option JsError) :
    (handleRefine s request (Except.error err)).generatedHtml = s.generatedHtml := by
  rfl

/-! ### C10 -/

/-- C10: if the model call inside `refineLessonPlan` succeeds but yields
empty (or undefined) text, the unchanged current artifact is returned; more
generally a successful refinement never turns a non-empty artifact into an
empty one. -/
theorem refineResult_empty_preserves_artifact :
    (∀ currentHtml : List Char, refineResult (some []) currentHtml = currentHtml) ∧
    (∀ currentHtml : List Char, refineResult none currentHtml = currentHtml) ∧
    (∀ (text : Option (List Char)) (currentHtml : List Char),
      currentHtml ≠ [] → refineResult text currentHtml ≠ []) := by
  refine ⟨fun currentHtml => rfl, fun currentHtml => rfl, ?_⟩
  intro text currentHtml hne
  cases text with
  | none => simpa [refineResult] using hne
  | some t =>
    simp only [refineResult]
    split
    · exact hne
    · next hcl =>
      intro habs
      rw [habs] at hcl
      simp at hcl

theorem refineResult_empty_preserves_artifact_witness :
    refineResult (some []) "<html>a</html>".toList = "<html>a</html>".toList ∧
    refineResult (some "b".toList) "<html>a</html>".toList ≠ [] :=
  ⟨refineResult_empty_preserves_artifact.1 "<html>a</html>".toList,
    refineResult_empty_preserves_artifact.2.2 (some "b".toList) "<html>a</html>".toList
      (by decide)⟩

/-! ### C7 -/

/-- C7: keyframe extraction samples exactly the three timestamps
`0.1 * d`, `0.5 * d`, `0.9 * d` in that order, and when every seek/render
succeeds it returns exactly those three frames in order; a 30-second video
is sampled at 3 s, 15 s and 27 s. -/
theorem extractKeyframes_three_frames :
    (∀ (d : ℚ) (render : ℚ → Option (List Char)) (f1 f2 f3 : List Char),
      render (d * (1 / 10)) = some f1 →
      render (d * (1 / 2)) = some f2 →
      render (d * (9 / 10)) = some f3 →
      extractKeyframes d render = Except.ok [f1, f2, f3] ∧
        keyframeTimestamps d = [d * (1 / 10), d * (1 / 2), d * (9 / 10)]) ∧
    keyframeTimestamps 30 = [3, 15, 27] := by
  constructor
  · intro d render f1 f2 f3 h1 h2 h3
    refine ⟨?_, rfl⟩
    simp only [extractKeyframes, keyframeTimestamps, collectFrames]
    rw [h1, h2, h3]
  · show [(30 : ℚ) * (1 / 10), 30 * (1 / 2), 30 * (9 / 10)] = [3, 15, 27]
    norm_num

def renderAt30 : ℚ → Option (List Char) :=
  fun t =>
    if t = 3 then some "frameA".toList
    else if t = 15 then some "frameB".toList
    else if t = 27 then some "frameC".toList
    else none

theorem extractKeyframes_three_frames_witness :
    extractKeyframes 30 renderAt30 =
      Except.ok ["frameA".toList, "frameB".toList, "frameC".toList] :=
  ((extractKeyframes_three_frames.1 30 renderAt30
    "frameA".toList "frameB".toList "frameC".toList
    (by norm_num [renderAt30]) (by norm_num [renderAt30]) (by norm_num [renderAt30]))).1

/-! ### C8 -/

/-- C8: when the artifact's contents match a `<title>` element, the download
file name is the captured title text with every character in the set
`< > : " / \ | ? *` replaced by `-`, surrounding whitespace trimmed,
followed by the literal `-sway-`, the `MM.DD.YY` date and `.html`; the title
`Coffee Shop: Level A2` becomes `Coffee Shop- Level A2` with only the colon
altered. -/
theorem downloadFileName_from_title :
    (∀ (html title : List Char) (month0 day fullYear : Nat),
      html ≠ [] →
      extractTitle html = some title →
      downloadFileName html (dateStr month0 day fullYear) =
        some (jsTrim (title.map sanitizeChar) ++ "-sway-".toList ++
          dateStr month0 day fullYear ++ ".html".toList)) ∧
    jsTrim ("Coffee Shop: Level A2".toList.map sanitizeChar) =
      "Coffee Shop- Level A2".toList := by
  constructor
  · intro html title month0 day fullYear hne htitle
    have hemp : html.isEmpty = false := by
      cases html with
      | nil => exact absurd rfl hne
      | cons c rest => rfl
    simp [downloadFileName, hemp, htitle]
  · decide

theorem downloadFileName_from_title_witness :
    downloadFileName "<html><title>Coffee Shop: Level A2</title></html>".toList
        (dateStr 9 11 2026) =
      some (jsTrim ("Coffee Shop: Level A2".toList.map sanitizeChar) ++ "-sway-".toList ++
        dateStr 9 11 2026 ++ ".html".toList) ∧
    jsTrim ("Coffee Shop: Level A2".toList.map sanitizeChar) =
      "Coffee Shop- Level A2".toList :=
  ⟨downloadFileName_from_title.1 "<html><title>Coffee Shop: Level A2</title></html>".toList
      "Coffee Shop: Level A2".toList 9 11 2026 (by decide) (by decide),
    downloadFileName_from_title.2⟩

/-! ### C9 -/

/-- Progress-only updates never touch status or payload fields. -/
theorem foldl_progress_fields (ps : List Nat) :
    ∀ f : FileItem,
      ((ps.map FileUpdate.progress).foldl applyUpdate f).status = f.status ∧
      ((ps.map FileUpdate.progress).foldl applyUpdate f).text = f.text ∧
      ((ps.map FileUpdate.progress).foldl applyUpdate f).data = f.data ∧
      ((ps.map FileUpdate.progress).foldl applyUpdate f).keyframes = f.keyframes := by
  induction ps with
  | nil => intro f; exact ⟨rfl, rfl, rfl, rfl⟩
  | cons p ps ih =>
    intro f
    simp only [List.map_cons, List.foldl_cons]
    have := ih (applyUpdate f (FileUpdate.progress p))
    simpa [applyUpdate] using this

/-- C9: for every processed file, a `completed` attachment has exactly one
of {text, data, keyframes} populated, an `error` attachment has none, and
every proper prefix of the update sequence leaves the item in `processing` —
a terminal status is reached only by the final update, so no update is ever
applied after a terminal status. -/
theorem processFile_attachment_invariant (name ftype : List Char) (n : Nat)
    (o : ProcessOutcome) :
    ((processFile name ftype n o).status = FileStatus.completed →
      populatedCount (processFile name ftype n o) = 1) ∧
    ((processFile name ftype n o).status = FileStatus.error →
      populatedCount (processFile name ftype n o) = 0) ∧
    (∀ k, k < (processUpdates n o).length →
      (((processUpdates n o).take k).foldl applyUpdate (initialItem name ftype)).status =
        FileStatus.processing) := by
  have hsplit : processFile name ftype n o =
      (outcomeUpdates o).foldl applyUpdate
        (((tickValues n).map FileUpdate.progress).foldl applyUpdate
          (initialItem name ftype)) := by
    simp [processFile, processUpdates, List.foldl_append]
  obtain ⟨hst, htx, hdt, hkf⟩ := foldl_progress_fields (tickValues n) (initialItem name ftype)
  set g : FileItem :=
    ((tickValues n).map FileUpdate.progress).foldl applyUpdate (initialItem name ftype)
    with hgdef
  have hst2 : g.status = FileStatus.processing := hst
  have htx2 : g.text = none := htx
  have hdt2 : g.data = none := hdt
  have hkf2 : g.keyframes = none := hkf
  refine ⟨?_, ?_, ?_⟩
  · rw [hsplit]
    cases o <;>
      simp [outcomeUpdates, applyUpdate, populatedCount, hst2, htx2, hdt2, hkf2]
  · rw [hsplit]
    cases o <;>
      simp [outcomeUpdates, applyUpdate, populatedCount, hst2, htx2, hdt2, hkf2]
  · intro k hk
    have hu : (outcomeUpdates o).length ≤ 1 := by cases o <;> simp [outcomeUpdates]
    have hk2 : k ≤ ((tickValues n).map FileUpdate.progress).length := by
      simp only [processUpdates, List.length_append] at hk
      omega
    rw [processUpdates, List.take_append_of_le_length hk2, ← List.map_take]
    rw [(foldl_progress_fields ((tickValues n).take k) (initialItem name ftype)).1]
    rfl

theorem processFile_attachment_invariant_witness :
    populatedCount
      (processFile "clip.mp4".toList "video/mp4".toList 2
        (ProcessOutcome.videoOk ["frameA".toList])) = 1 ∧
    populatedCount
      (processFile "clip.mp4".toList "video/mp4".toList 2 ProcessOutcome.videoFail) = 0 ∧
    (((processUpdates 2 (ProcessOutcome.videoOk ["frameA".toList])).take 1).foldl applyUpdate
      (initialItem "clip.mp4".toList "video/mp4".toList)).status = FileStatus.processing :=
  ⟨(processFile_attachment_invariant "clip.mp4".toList "video/mp4".toList 2
      (ProcessOutcome.videoOk ["frameA".toList])).1 (by decide),
    (processFile_attachment_invariant "clip.mp4".toList "video/mp4".toList 2
      ProcessOutcome.videoFail).2.1 (by decide),
    (processFile_attachment_invariant "clip.mp4".toList "video/mp4".toList 2
      (ProcessOutcome.videoOk ["frameA".toList])).2.2 1 (by decide)⟩
